import Mathlib

/-!
# alertmanager-discord: the request handler of `main.go`

A shallow embedding of the HTTP handler closure of `main` (main.go, lines 89-172):
decode the Alertmanager notification, group its alerts by status, build one
Discord webhook request per status group, POST it, log the response.

Modelling conventions.

* Go strings are Lean `String`s (sequences of code points; the JSON decoder only
  produces valid UTF-8).
* A Go `map[string]T` is an association list with pairwise distinct keys
  (`StrMap T`), kept in first-insertion order.  The order in which a `range`
  statement visits a map is not specified by Go; it is supplied by a
  `RangeOrder`, a rearrangement of the entries.
* Library calls whose result is not determined by the program text are inputs:
  the JSON decoder (`json.Unmarshal`), the non-ASCII part of `unicode.ToUpper`,
  and the network (`http.Post` together with reading the response body).
-/

namespace AlertmanagerDiscord

/-! ## Maps -/

/-- A Go `map[string]β`: association list, first-insertion order. -/
abbrev StrMap (β : Type) := List (String × β)

/-- The map read `m[k]` with zero value `zero` for an absent key. -/
def StrMap.index {β : Type} (m : StrMap β) (k : String) (zero : β) : β :=
  (List.lookup k m).getD zero

/-- The map write `m[k] = v`: overwrite the entry of `k`, or add one. -/
def StrMap.assign {β : Type} : StrMap β → String → β → StrMap β
  | [], k, v => [(k, v)]
  | (k', v') :: rest, k, v =>
    if k' = k then (k, v) :: rest else (k', v') :: StrMap.assign rest k v

/-- The keys of a map, in entry order. -/
def StrMap.keys {β : Type} (m : StrMap β) : List String := m.map Prod.fst

/-- Total number of elements held by the groups of a map. -/
def StrMap.total {α : Type} (m : StrMap (List α)) : Nat :=
  (m.map (fun g => g.2.length)).sum

/-- The order in which one execution of a `range` statement visits the entries of
a map: some rearrangement of the entries, each visited exactly once. -/
structure RangeOrder (β : Type) where
  visit : StrMap β → StrMap β
  perm : ∀ m, (visit m).Perm m

/-- Visit the entries in insertion order. -/
def RangeOrder.insertion (β : Type) : RangeOrder β :=
  ⟨fun m => m, fun m => List.Perm.refl m⟩

/-- Visit the entries in reverse insertion order. -/
def RangeOrder.reversed (β : Type) : RangeOrder β :=
  ⟨fun m => m.reverse, fun m => List.reverse_perm m⟩

/-! ## Data model -/

/-- The type `template.KV` of the Alertmanager library: `map[string]string`. -/
abbrev KV := StrMap String

/-- The type `template.Alert` of the Alertmanager library (timestamps kept as text). -/
structure Alert where
  Status : String
  Labels : KV
  Annotations : KV
  StartsAt : String
  EndsAt : String
  GeneratorURL : String
  Fingerprint : String
  deriving DecidableEq, Repr

/-- The type `template.Data` of the Alertmanager library. -/
structure Data where
  Receiver : String
  Status : String
  Alerts : List Alert
  GroupLabels : KV
  CommonLabels : KV
  CommonAnnotations : KV
  ExternalURL : String
  deriving DecidableEq, Repr

/-- main.go, lines 48-51. -/
structure discordAuthor where
  Name : String
  IconUrl : String
  deriving DecidableEq, Repr

/-- main.go, lines 53-55. -/
structure discordFooter where
  Text : String
  deriving DecidableEq, Repr

/-- main.go, lines 57-60. -/
structure discordField where
  Name : String
  Value : String
  deriving DecidableEq, Repr

/-- main.go, lines 62-69. -/
structure discordEmbed where
  Title : String
  Author : discordAuthor
  Description : String
  Fields : List discordField
  Color : Int
  Footer : discordFooter
  deriving DecidableEq, Repr

/-- main.go, lines 71-76. -/
structure discordRequest where
  Content : String
  Username : String
  AvatarURL : String
  Embeds : List discordEmbed
  deriving DecidableEq, Repr

/-! ## Grouping by status (main.go, lines 103-107) -/

/-- One iteration of the grouping loop, line 106:
`groupedAlerts[alert.Status] = append(groupedAlerts[alert.Status], alert)`.
The element type is generic so that the same loop can be run on alerts tagged
with their position. -/
def groupStep {α : Type} (status : α → String) (m : StrMap (List α)) (alert : α) :
    StrMap (List α) :=
  m.assign (status alert) (m.index (status alert) [] ++ [alert])

/-- The loop of lines 105-107 started from the map `m`. -/
def groupLoop {α : Type} (status : α → String) (m : StrMap (List α)) (alerts : List α) :
    StrMap (List α) :=
  alerts.foldl (groupStep status) m

/-- Lines 103-107 on elements of any type carrying a status. -/
def groupedAlertsBy {α : Type} (status : α → String) (alerts : List α) : StrMap (List α) :=
  groupLoop status [] alerts

/-- The map `groupedAlerts` after the loop of lines 103-107. -/
def groupedAlerts (alerts : List Alert) : StrMap (List Alert) :=
  groupedAlertsBy Alert.Status alerts

/-- The same loop run on the alerts paired with their positions in the input. -/
def groupedPositions (alerts : List Alert) : StrMap (List (Nat × Alert)) :=
  groupedAlertsBy (fun p => p.2.Status) alerts.enum

/-! ## Message builder (main.go, lines 109-155) -/

/-- Go's `unicode.ToUpper` on one code point.  Below `utf8.RuneSelf` (128) the
library maps `a`..`z` to `A`..`Z` and leaves everything else alone; above, the
result is read from the Unicode case tables, here the parameter `tbl`. -/
def toUpperRune (tbl : Char → Char) (c : Char) : Char :=
  if c.val < 128 then c.toUpper else tbl c

/-- Go's `strings.ToUpper`: every code point mapped by `unicode.ToUpper`. -/
def ToUpper (tbl : Char → Char) (s : String) : String :=
  String.mk (s.data.map (toUpperRune tbl))

/-- Case-insensitive equality of two strings, in the sense the handler uses:
the two strings are equal once both are upper-cased. -/
def equalIgnoringCase (tbl : Char → Char) (a b : String) : Prop :=
  ToUpper tbl a = ToUpper tbl b

/-- The icon chosen at line 119. -/
def firingIconUrl : String := "https://www.iconfinder.com/icons/116853/download/png/128"

/-- The icon chosen at line 122. -/
def resolvedIconUrl : String := "https://www.iconfinder.com/icons/2682848/download/png/128"

/-- The variable `iconUrl` after lines 116-124. -/
def iconUrl (tbl : Char → Char) (status : String) : String :=
  if ToUpper tbl status = "FIRING" then firingIconUrl else resolvedIconUrl

/-- The variable `color` after lines 116-124. -/
def color (tbl : Char → Char) (status : String) : Int :=
  if ToUpper tbl status = "FIRING" then 0 else 255

/-- The text `fmt.Sprintf("**%s:** %s\n", k, v)` of line 144. -/
def labelLine (k v : String) : String :=
  "**" ++ k ++ ":** " ++ v ++ "\n"

/-- The variable `value` after the loop of lines 142-145, the label entries being
visited in the order `visited`. -/
def labelsValue (visited : KV) : String :=
  visited.foldl (fun value kv => value ++ labelLine kv.1 kv.2) ""

/-- The embed appended to the request for one alert, lines 128-152. -/
def buildEmbed (tbl : Char → Char) (labelOrder : RangeOrder String) (status : String)
    (alert : Alert) : discordEmbed :=
  let embed : discordEmbed :=
    { Author := { Name := ToUpper tbl status, IconUrl := iconUrl tbl status }
      Title := "**" ++ alert.Annotations.index "summary" "" ++ "**"
      Description := alert.Annotations.index "description" ""
      Color := color tbl status
      Fields := []
      Footer := { Text := "" } }
  let value := labelsValue (labelOrder.visit alert.Labels)
  let field : discordField := { Name := "Labels:", Value := value }
  { embed with Fields := embed.Fields ++ [field] }

/-- The loop of lines 126-155 from the `i`-th alert of the group on, `embeds`
being `request.Embeds` so far.  `labelOrder i` is the order in which the label
map of the `i`-th alert is ranged over. -/
def embedsLoop (tbl : Char → Char) (labelOrder : Nat → RangeOrder String) (status : String) :
    Nat → List Alert → List discordEmbed → List discordEmbed
  | _, [], embeds => embeds
  | i, alert :: rest, embeds =>
    embedsLoop tbl labelOrder status (i + 1) rest
      (embeds ++ [buildEmbed tbl (labelOrder i) status alert])

/-- The value of `request` at line 157 for the group `status`, `alerts`. -/
def buildRequest (tbl : Char → Char) (labelOrder : Nat → RangeOrder String) (status : String)
    (alerts : List Alert) : discordRequest :=
  let request : discordRequest :=
    { Content := ""
      Username := "Prometheus"
      AvatarURL := "https://avatars1.githubusercontent.com/u/3380462?s=200&v=4"
      Embeds := [] }
  { request with Embeds := embedsLoop tbl labelOrder status 0 alerts request.Embeds }

/-! ## Delivery and the handler (main.go, lines 89-172) -/

/-- What `http.Post` (line 158) and the read of the response body (line 163) give. -/
inductive PostResult where
  /-- The call `http.Post` returned an error: no HTTP response was received. -/
  | transportError (err : String)
  /-- An HTTP response with this status code; `body` is the result of
  `ioutil.ReadAll(response.Body)`. -/
  | response (StatusCode : Int) (body : Except String String)

/-- What the handler writes to the process log while delivering. -/
inductive LogEntry where
  /-- Line 170: `Discord webhook response: [httpStatus: %d; body: %s]`. -/
  | webhookResponse (httpStatus : Int) (body : String)
  /-- Line 160: `failed to call discord webhook: %v`, after which the process exits. -/
  | fatal (msg : String)
  deriving DecidableEq, Repr

/-- How one run of the handler ends. -/
inductive Outcome where
  /-- The handler function returned. -/
  | returned
  /-- The handler panicked (lines 94 and 100). -/
  | panicked (err : String)
  /-- The call `log.Fatalf` of line 160 ended the process with `os.Exit(1)`. -/
  | exited
  deriving DecidableEq, Repr

/-- The observable run of the handler on one request. -/
structure Trace where
  /-- The outbound messages handed to `http.Post`, in call order. -/
  posts : List discordRequest
  log : List LogEntry
  outcome : Outcome
  deriving DecidableEq, Repr

/-- The variable `body` after lines 162-169. -/
def responseBody : Except String String → String
  | .error err => "failed read discord webhook response body: " ++ err
  | .ok bodyBytes => bodyBytes

/-- The loop of lines 109-171 over the status groups in visiting order; `n` counts
the POSTs already made for this request.  A transport error ends the process
inside the loop body (line 160); any HTTP response is logged (line 170) and the
loop goes on.  The body handed to `http.Post` is `json.Marshal(request)`, which
cannot fail on a `discordRequest`; the posted message is recorded as `request`. -/
def deliverLoop (tbl : Char → Char) (labelOrder : String → Nat → RangeOrder String)
    (post : Nat → discordRequest → PostResult) :
    Nat → StrMap (List Alert) → Trace
  | _, [] => { posts := [], log := [], outcome := .returned }
  | n, (status, alerts) :: rest =>
    let request := buildRequest tbl (labelOrder status) status alerts
    match post n request with
    | .transportError err =>
      { posts := [request]
        log := [.fatal ("failed to call discord webhook: " ++ err)]
        outcome := .exited }
    | .response StatusCode body =>
      let later := deliverLoop tbl labelOrder post (n + 1) rest
      { posts := request :: later.posts
        log := .webhookResponse StatusCode (responseBody body) :: later.log
        outcome := later.outcome }

/-- Everything the handler takes from its surroundings. -/
structure World where
  /-- The Unicode upper-case table used by `strings.ToUpper`. -/
  upperTable : Char → Char
  /-- The decoder `json.Unmarshal` into `template.Data` (line 98). -/
  decode : List UInt8 → Except String Data
  /-- The visiting order of `range groupedAlerts` (line 109). -/
  groupOrder : RangeOrder (List Alert)
  /-- The visiting order of `range alert.Labels` (line 143) for the alert at a
  given position of the group with a given status. -/
  labelOrder : String → Nat → RangeOrder String
  /-- The network: the result of the `n`-th POST of this request. -/
  post : Nat → discordRequest → PostResult

/-- The handler closure of lines 89-172; `body` is the result of
`ioutil.ReadAll(r.Body)` (line 92).  The dump of the request written to the log
by `printRequest` is left out. -/
def handler (w : World) (body : Except String (List UInt8)) : Trace :=
  match body with
  | .error err => { posts := [], log := [], outcome := .panicked err }
  | .ok b =>
    match w.decode b with
    | .error err => { posts := [], log := [], outcome := .panicked err }
    | .ok alertManagerNotification =>
      deliverLoop w.upperTable w.labelOrder w.post 0
        (w.groupOrder.visit (groupedAlerts alertManagerNotification.Alerts))

/-- The HTTP status the inbound caller receives.  The handler never writes to the
`http.ResponseWriter`, so `net/http` answers `200 OK` when the handler returns;
after a panic or after the process has exited no response is sent. -/
def inboundStatus : Outcome → Option Nat
  | .returned => some 200
  | .panicked _ => none
  | .exited => none

/-! ## Sample inputs -/

/-- The alert of the end-to-end scenario: status firing, one label, both annotations. -/
def highCPU : Alert :=
  { Status := "firing"
    Labels := [("alertname", "HighCPU")]
    Annotations := [("summary", "CPU high"), ("description", "CPU > 90%")]
    StartsAt := "", EndsAt := "", GeneratorURL := "", Fingerprint := "" }

/-- An alert with two labels and no annotations. -/
def diskFull : Alert :=
  { Status := "resolved"
    Labels := [("alertname", "DiskFull"), ("severity", "page")]
    Annotations := []
    StartsAt := "", EndsAt := "", GeneratorURL := "", Fingerprint := "" }

/-- Every label map is ranged over in insertion order. -/
def insertionOrder : Nat → RangeOrder String := fun _ => RangeOrder.insertion String

/-- Every label map is ranged over in reverse insertion order. -/
def reversedOrder : Nat → RangeOrder String := fun _ => RangeOrder.reversed String

/-- The bytes of an ASCII text. -/
def asciiBytes (text : String) : List UInt8 :=
  text.data.map (fun c => c.toNat.toUInt8)

/-- A body cut off after its first byte: not well-formed JSON. -/
def truncatedPayload : List UInt8 := asciiBytes "\x7b"

/-- The body of the end-to-end scenario with one firing alert. -/
def scenarioPayload : List UInt8 :=
  asciiBytes ("\x7b\"alerts\":[\x7b\"status\":\"firing\"," ++
    "\"labels\":\x7b\"alertname\":\"HighCPU\"\x7d," ++
    "\"annotations\":\x7b\"summary\":\"CPU high\",\"description\":\"CPU > 90%\"\x7d\x7d]\x7d")

/-- A body with one firing and one resolved alert. -/
def twoStatusPayload : List UInt8 :=
  asciiBytes
    "\x7b\"alerts\":[\x7b\"status\":\"firing\"\x7d,\x7b\"status\":\"resolved\"\x7d]\x7d"

/-- A notification holding the given alerts and nothing else. -/
def notificationOf (alerts : List Alert) : Data :=
  { Receiver := "", Status := "", Alerts := alerts, GroupLabels := [], CommonLabels := [],
    CommonAnnotations := [], ExternalURL := "" }

/-- An alert with a status and nothing else. -/
def bareAlert (status : String) : Alert :=
  { Status := status, Labels := [], Annotations := [],
    StartsAt := "", EndsAt := "", GeneratorURL := "", Fingerprint := "" }

/-- The decoder on the three sample bodies (every other body is rejected). -/
def sampleDecode (b : List UInt8) : Except String Data :=
  if b = scenarioPayload then .ok (notificationOf [highCPU])
  else if b = twoStatusPayload then
    .ok (notificationOf [bareAlert "firing", bareAlert "resolved"])
  else if b = truncatedPayload then .error "unexpected end of JSON input"
  else .error "not a sample body"

/-- A destination that answers every POST with status 500 and a body. -/
def failingDestination : World :=
  { upperTable := id
    decode := sampleDecode
    groupOrder := RangeOrder.reversed (List Alert)
    labelOrder := fun _ => insertionOrder
    post := fun _ _ => .response 500 (.ok "internal error") }

/-- A destination that cannot be reached: every POST fails at transport level. -/
def unreachableDestination : World :=
  { upperTable := id
    decode := sampleDecode
    groupOrder := RangeOrder.insertion (List Alert)
    labelOrder := fun _ => insertionOrder
    post := fun _ _ => .transportError "connection refused" }

/-- A destination that answers the first POST with 500 and is unreachable afterwards. -/
def flakyDestination : World :=
  { upperTable := id
    decode := sampleDecode
    groupOrder := RangeOrder.insertion (List Alert)
    labelOrder := fun _ => insertionOrder
    post := fun n _ =>
      if n = 0 then .response 500 (.ok "internal error")
      else .transportError "connection refused" }

/-! ## Lemmas on maps -/

theorem StrMap.lookup_assign_self {β : Type} (m : StrMap β) (k : String) (v : β) :
    List.lookup k (m.assign k v) = some v := by
  induction m with
  | nil => simp [StrMap.assign, List.lookup]
  | cons e rest ih =>
    obtain ⟨k', v'⟩ := e
    by_cases h : k' = k
    · simp [StrMap.assign, h, List.lookup]
    · have h' : (k == k') = false := by
        simpa using fun e => h e.symm
      simp [StrMap.assign, h, List.lookup, h', ih]

theorem StrMap.lookup_assign_ne {β : Type} (m : StrMap β) (k s : String) (v : β)
    (hs : s ≠ k) : List.lookup s (m.assign k v) = List.lookup s m := by
  induction m with
  | nil =>
    have h' : (s == k) = false := by simpa using hs
    simp [StrMap.assign, List.lookup, h']
  | cons e rest ih =>
    obtain ⟨k', v'⟩ := e
    by_cases h : k' = k
    · subst h
      have h' : (s == k') = false := by simpa using hs
      simp [StrMap.assign, List.lookup, h']
    · simp only [StrMap.assign, h, if_false, List.lookup, ih]

theorem StrMap.keys_assign {β : Type} (m : StrMap β) (k : String) (v : β) :
    (m.assign k v).keys = if k ∈ m.keys then m.keys else m.keys ++ [k] := by
  induction m with
  | nil => simp [StrMap.assign, StrMap.keys]
  | cons e rest ih =>
    obtain ⟨k', v'⟩ := e
    by_cases h : k' = k
    · subst h
      simp [StrMap.assign, StrMap.keys]
    · have h2 : ¬ k = k' := fun e => h e.symm
      have ih' := ih
      simp only [StrMap.keys] at ih' ⊢
      simp only [StrMap.assign, h, if_false, List.map_cons, List.mem_cons, h2, false_or, ih']
      split <;> simp

theorem StrMap.nodup_keys_assign {β : Type} (m : StrMap β) (k : String) (v : β)
    (hm : m.keys.Nodup) : (m.assign k v).keys.Nodup := by
  rw [StrMap.keys_assign]
  split
  · exact hm
  · rename_i hk
    exact List.Nodup.append hm (List.nodup_singleton k) (by simpa using hk)

theorem StrMap.mem_keys_iff_lookup {β : Type} (m : StrMap β) (s : String) :
    s ∈ m.keys ↔ List.lookup s m ≠ none := by
  induction m with
  | nil => simp [StrMap.keys, List.lookup]
  | cons e rest ih =>
    obtain ⟨k', v'⟩ := e
    by_cases h : s = k'
    · subst h
      simp [StrMap.keys, List.lookup]
    · have h' : (s == k') = false := by simpa using h
      simp only [StrMap.keys] at ih
      simp [StrMap.keys, List.lookup, h', h, ih]

theorem StrMap.total_assign_append {α : Type} (m : StrMap (List α)) (k : String) (a : α) :
    StrMap.total (m.assign k (m.index k [] ++ [a])) = StrMap.total m + 1 := by
  induction m with
  | nil => simp [StrMap.assign, StrMap.total, StrMap.index]
  | cons e rest ih =>
    obtain ⟨k', v'⟩ := e
    by_cases h : k' = k
    · subst h
      simp [StrMap.assign, StrMap.total, StrMap.index, List.lookup]
      omega
    · have h' : (k == k') = false := by simpa using fun e => h e.symm
      have e1 : StrMap.index ((k', v') :: rest) k [] = StrMap.index rest k [] := by
        simp [StrMap.index, List.lookup, h']
      rw [e1]
      simp only [StrMap.total] at ih ⊢
      simp only [StrMap.assign, h, if_false, List.map_cons, List.sum_cons, ih]
      omega

theorem StrMap.flatten_assign_append {α : Type} (m : StrMap (List α)) (k : String) (a : α) :
    ((m.assign k (m.index k [] ++ [a])).flatMap Prod.snd).Perm (m.flatMap Prod.snd ++ [a]) := by
  induction m with
  | nil => simp [StrMap.assign, StrMap.index]
  | cons e rest ih =>
    obtain ⟨k', v'⟩ := e
    by_cases h : k' = k
    · subst h
      simp only [StrMap.assign, if_true, StrMap.index, List.lookup, beq_self_eq_true,
        Option.getD_some, List.flatMap_cons, List.append_assoc]
      exact List.Perm.append_left v' List.perm_append_comm
    · have h' : (k == k') = false := by simpa using fun e => h e.symm
      have e1 : StrMap.index ((k', v') :: rest) k [] = StrMap.index rest k [] := by
        simp [StrMap.index, List.lookup, h']
      rw [e1]
      simp only [StrMap.assign, h, if_false, List.flatMap_cons, List.append_assoc]
      exact List.Perm.append_left v' ih

theorem StrMap.mem_iff_lookup {β : Type} (m : StrMap β) (hm : m.keys.Nodup) (s : String)
    (g : β) : (s, g) ∈ m ↔ List.lookup s m = some g := by
  induction m with
  | nil => simp [List.lookup]
  | cons e rest ih =>
    obtain ⟨k', v'⟩ := e
    have hk : k' ∉ StrMap.keys rest := by
      simp only [StrMap.keys, List.map_cons, List.nodup_cons] at hm
      exact hm.1
    have hr : (StrMap.keys rest).Nodup := by
      simp only [StrMap.keys, List.map_cons, List.nodup_cons] at hm
      exact hm.2
    by_cases h : s = k'
    · subst h
      have hnot : (s, g) ∉ rest := by
        intro hmem
        exact hk (List.mem_map.mpr ⟨(s, g), hmem, rfl⟩)
      simp only [List.mem_cons, Prod.mk.injEq, true_and, hnot, or_false, List.lookup,
        beq_self_eq_true, Option.some.injEq]
      exact eq_comm
    · have h' : (s == k') = false := by simpa using h
      simp only [List.mem_cons, Prod.mk.injEq, h, false_and, false_or, List.lookup, h']
      exact ih hr

/-! ## Lemmas on the grouping loop -/

theorem groupStep_lookup {α : Type} (status : α → String) (m : StrMap (List α))
    (seen : List α) (a : α)
    (hm : ∀ s, List.lookup s m =
      if s ∈ seen.map status then some (seen.filter (fun x => status x = s)) else none)
    (s : String) :
    List.lookup s (groupStep status m a) =
      if s ∈ (seen ++ [a]).map status
      then some ((seen ++ [a]).filter (fun x => status x = s)) else none := by
  by_cases hs : s = status a
  · subst hs
    have hidx : StrMap.index m (status a) [] = seen.filter (fun x => status x = status a) := by
      unfold StrMap.index
      rw [hm (status a)]
      split
      · rfl
      · rename_i hn
        symm
        simp only [Option.getD_none, List.filter_eq_nil_iff, decide_eq_true_eq]
        intro x hx hxs
        exact hn (List.mem_map.mpr ⟨x, hx, hxs⟩)
    unfold groupStep
    rw [StrMap.lookup_assign_self, hidx]
    simp [List.filter_append]
  · unfold groupStep
    rw [StrMap.lookup_assign_ne _ _ _ _ hs, hm s]
    have hne : ¬ status a = s := fun e => hs e.symm
    simp [List.filter_append, hne, hs]

theorem groupLoop_lookup {α : Type} (status : α → String) (alerts : List α) :
    ∀ (m : StrMap (List α)) (seen : List α),
      (∀ s, List.lookup s m =
        if s ∈ seen.map status then some (seen.filter (fun x => status x = s)) else none) →
      ∀ s, List.lookup s (groupLoop status m alerts) =
        if s ∈ (seen ++ alerts).map status
        then some ((seen ++ alerts).filter (fun x => status x = s)) else none := by
  induction alerts with
  | nil =>
    intro m seen hm s
    simpa [groupLoop] using hm s
  | cons a rest ih =>
    intro m seen hm s
    have h := ih (groupStep status m a) (seen ++ [a]) (groupStep_lookup status m seen a hm) s
    simpa [groupLoop, List.append_assoc] using h

theorem groupedAlertsBy_lookup {α : Type} (status : α → String) (alerts : List α) (s : String) :
    List.lookup s (groupedAlertsBy status alerts) =
      if s ∈ alerts.map status then some (alerts.filter (fun x => status x = s)) else none := by
  have h := groupLoop_lookup status alerts [] [] (by intro s; simp [List.lookup]) s
  simpa [groupedAlertsBy] using h

theorem groupLoop_nodup_keys {α : Type} (status : α → String) (alerts : List α) :
    ∀ m : StrMap (List α), m.keys.Nodup → (groupLoop status m alerts).keys.Nodup := by
  induction alerts with
  | nil => intro m hm; simpa [groupLoop] using hm
  | cons a rest ih =>
    intro m hm
    exact ih (groupStep status m a) (StrMap.nodup_keys_assign m _ _ hm)

theorem groupedAlertsBy_nodup_keys {α : Type} (status : α → String) (alerts : List α) :
    (groupedAlertsBy status alerts).keys.Nodup :=
  groupLoop_nodup_keys status alerts [] (by simp [StrMap.keys])

theorem groupedAlertsBy_mem_keys {α : Type} (status : α → String) (alerts : List α)
    (s : String) : s ∈ (groupedAlertsBy status alerts).keys ↔ s ∈ alerts.map status := by
  rw [StrMap.mem_keys_iff_lookup, groupedAlertsBy_lookup]
  split <;> simp_all

theorem groupedAlertsBy_length {α : Type} (status : α → String) (alerts : List α) :
    (groupedAlertsBy status alerts).length = (alerts.map status).dedup.length := by
  have hperm : (groupedAlertsBy status alerts).keys.Perm (alerts.map status).dedup := by
    rw [List.perm_ext_iff_of_nodup (groupedAlertsBy_nodup_keys status alerts)
      (List.nodup_dedup _)]
    intro s
    rw [groupedAlertsBy_mem_keys, List.mem_dedup]
  have h := hperm.length_eq
  simpa [StrMap.keys] using h

theorem groupLoop_total {α : Type} (status : α → String) (alerts : List α) :
    ∀ m : StrMap (List α),
      StrMap.total (groupLoop status m alerts) = StrMap.total m + alerts.length := by
  induction alerts with
  | nil => intro m; simp [groupLoop]
  | cons a rest ih =>
    intro m
    have h := ih (groupStep status m a)
    have h1 : StrMap.total (groupStep status m a) = StrMap.total m + 1 :=
      StrMap.total_assign_append m (status a) a
    simp only [groupLoop, List.foldl_cons, List.length_cons] at h ⊢
    omega

theorem groupLoop_flatten {α : Type} (status : α → String) (alerts : List α) :
    ∀ m : StrMap (List α),
      ((groupLoop status m alerts).flatMap Prod.snd).Perm (m.flatMap Prod.snd ++ alerts) := by
  induction alerts with
  | nil => intro m; simp [groupLoop]
  | cons a rest ih =>
    intro m
    have h := ih (groupStep status m a)
    have h1 : ((groupStep status m a).flatMap Prod.snd).Perm (m.flatMap Prod.snd ++ [a]) :=
      StrMap.flatten_assign_append m (status a) a
    have h2 := h.trans (List.Perm.append_right rest h1)
    simpa [groupLoop, List.append_assoc] using h2

/-- Applying `f` to every element of every group. -/
theorem groupLoop_map {α β : Type} (f : α → β) (status : β → String) (alerts : List α) :
    ∀ m : StrMap (List α),
      groupLoop status (m.map (fun g => (g.1, g.2.map f))) (alerts.map f) =
        (groupLoop (fun x => status (f x)) m alerts).map (fun g => (g.1, g.2.map f)) := by
  have hidx : ∀ (m : StrMap (List α)) (k : String),
      StrMap.index (m.map (fun g => (g.1, g.2.map f))) k [] = (StrMap.index m k []).map f := by
    intro m k
    induction m with
    | nil => simp [StrMap.index, List.lookup]
    | cons e rest ih =>
      obtain ⟨k', v'⟩ := e
      by_cases h : k = k'
      · subst h
        simp [StrMap.index, List.lookup]
      · have h' : (k == k') = false := by simpa using h
        simp only [StrMap.index] at ih
        simp [StrMap.index, List.lookup, h', ih]
  have hasg : ∀ (m : StrMap (List α)) (k : String) (v : List α),
      StrMap.assign (m.map (fun g => (g.1, g.2.map f))) k (v.map f) =
        (StrMap.assign m k v).map (fun g => (g.1, g.2.map f)) := by
    intro m k v
    induction m with
    | nil => simp [StrMap.assign]
    | cons e rest ih =>
      obtain ⟨k', v'⟩ := e
      by_cases h : k' = k
      · simp [StrMap.assign, h]
      · simp [StrMap.assign, h, ih]
  induction alerts with
  | nil => intro m; simp [groupLoop]
  | cons a rest ih =>
    intro m
    have hstep : groupStep status (m.map (fun g => (g.1, g.2.map f))) (f a) =
        (groupStep (fun x => status (f x)) m a).map (fun g => (g.1, g.2.map f)) := by
      unfold groupStep
      rw [hidx, ← hasg]
      simp
    have h := ih (groupStep (fun x => status (f x)) m a)
    simp only [groupLoop, List.map_cons, List.foldl_cons] at h ⊢
    rw [hstep]
    exact h

/-! ## Lemmas on the message builder -/

theorem labelsValue_eq_join (visited : KV) :
    labelsValue visited = String.join (visited.map (fun kv => labelLine kv.1 kv.2)) := by
  unfold labelsValue String.join
  rw [List.foldl_map]

theorem embedsLoop_eq (tbl : Char → Char) (labelOrder : Nat → RangeOrder String)
    (status : String) (alerts : List Alert) :
    ∀ (i : Nat) (embeds : List discordEmbed),
      embedsLoop tbl labelOrder status i alerts embeds =
        embeds ++ (alerts.enumFrom i).map
          (fun p => buildEmbed tbl (labelOrder p.1) status p.2) := by
  induction alerts with
  | nil => intro i embeds; simp [embedsLoop]
  | cons a rest ih =>
    intro i embeds
    simp [embedsLoop, ih, List.append_assoc]

theorem buildRequest_embeds (tbl : Char → Char) (labelOrder : Nat → RangeOrder String)
    (status : String) (alerts : List Alert) :
    (buildRequest tbl labelOrder status alerts).Embeds =
      alerts.enum.map (fun p => buildEmbed tbl (labelOrder p.1) status p.2) := by
  simp [buildRequest, embedsLoop_eq, List.enum]

theorem buildRequest_embeds_getElem? (tbl : Char → Char)
    (labelOrder : Nat → RangeOrder String) (status : String) (alerts : List Alert) (i : Nat) :
    (buildRequest tbl labelOrder status alerts).Embeds[i]? =
      (alerts[i]?).map (buildEmbed tbl (labelOrder i) status) := by
  rw [buildRequest_embeds, List.getElem?_map, List.enum, List.getElem?_enumFrom]
  cases alerts[i]? <;> simp

theorem buildRequest_embeds_length (tbl : Char → Char)
    (labelOrder : Nat → RangeOrder String) (status : String) (alerts : List Alert) :
    (buildRequest tbl labelOrder status alerts).Embeds.length = alerts.length := by
  simp [buildRequest_embeds]

theorem ToUpper_firing (tbl : Char → Char) : ToUpper tbl "firing" = "FIRING" := rfl

theorem ascii_upper_iff_lower (X x : Char)
    (h : ∀ n, n < 128 → ((Char.ofNat n).toUpper = X ↔ (Char.ofNat n).toLower = x))
    (c : Char) (hc : c.toNat < 128) : c.toUpper = X ↔ c.toLower = x := by
  have h' := h c.toNat hc
  rwa [Char.ofNat_toNat] at h'

theorem map_upper_iff_map_lower (U L : List Char)
    (hUL : List.Forall₂
      (fun X x => ∀ c : Char, c.toNat < 128 → (c.toUpper = X ↔ c.toLower = x)) U L) :
    ∀ l : List Char, (∀ c ∈ l, c.toNat < 128) →
      (l.map Char.toUpper = U ↔ l.map Char.toLower = L) := by
  induction hUL with
  | nil => intro l _; simp
  | cons hx _ ih =>
    intro l hl
    cases l with
    | nil => simp
    | cons c cs =>
      have h1 := hx c (hl c (List.mem_cons_self c cs))
      have h2 := ih cs (fun d hd => hl d (List.mem_cons_of_mem c hd))
      simp only [List.map_cons, List.cons.injEq, h1, h2]

/-- For a status made of ASCII characters, equality with "firing" up to case is
letter-by-letter equality after lower-casing, whatever the Unicode table. -/
theorem equalIgnoringCase_firing_ascii (tbl : Char → Char) (status : String)
    (hascii : ∀ c ∈ status.data, c.toNat < 128) :
    equalIgnoringCase tbl status "firing" ↔
      status.data.map Char.toLower = ['f', 'i', 'r', 'i', 'n', 'g'] := by
  have hmap : status.data.map (toUpperRune tbl) = status.data.map Char.toUpper := by
    apply List.map_congr_left
    intro c hc
    have h : c.val < 128 := hascii c hc
    simp only [toUpperRune, h, if_true]
  have hU : equalIgnoringCase tbl status "firing" ↔
      status.data.map Char.toUpper = ['F', 'I', 'R', 'I', 'N', 'G'] := by
    unfold equalIgnoringCase
    rw [ToUpper_firing, ToUpper, hmap]
    constructor
    · intro h
      exact congrArg String.data h
    · intro h
      rw [h]
  rw [hU]
  refine map_upper_iff_map_lower _ _ ?_ status.data hascii
  refine .cons (ascii_upper_iff_lower _ _ (by decide)) (.cons
    (ascii_upper_iff_lower _ _ (by decide)) (.cons
    (ascii_upper_iff_lower _ _ (by decide)) (.cons
    (ascii_upper_iff_lower _ _ (by decide)) (.cons
    (ascii_upper_iff_lower _ _ (by decide)) (.cons
    (ascii_upper_iff_lower _ _ (by decide)) .nil)))))

/-! ## The message builder: claims -/

/-- C1: every embed of the message built for the group keyed by `status` carries the
firing icon and color 0 when `status` equals "firing" up to case, and the resolved
icon and color 255 for every other status; "firing" and "FIRING" are firing,
"resolved" and "flapping" are not.  For an ASCII status, equality up to case is
equality of the lower-cased letters with those of "firing". -/
theorem embed_badge_by_status (tbl : Char → Char) (labelOrder : Nat → RangeOrder String)
    (status : String) (alerts : List Alert) (e : discordEmbed)
    (he : e ∈ (buildRequest tbl labelOrder status alerts).Embeds) :
    ((equalIgnoringCase tbl status "firing" →
        e.Author.IconUrl = "https://www.iconfinder.com/icons/116853/download/png/128" ∧
        e.Color = 0) ∧
     (¬ equalIgnoringCase tbl status "firing" →
        e.Author.IconUrl = "https://www.iconfinder.com/icons/2682848/download/png/128" ∧
        e.Color = 255)) ∧
    (equalIgnoringCase tbl "firing" "firing" ∧ equalIgnoringCase tbl "FIRING" "firing" ∧
     ¬ equalIgnoringCase tbl "resolved" "firing" ∧
     ¬ equalIgnoringCase tbl "flapping" "firing") ∧
    ((∀ c ∈ status.data, c.toNat < 128) →
      (equalIgnoringCase tbl status "firing" ↔
        status.data.map Char.toLower = ['f', 'i', 'r', 'i', 'n', 'g'])) := by
  rw [buildRequest_embeds] at he
  obtain ⟨p, _, rfl⟩ := List.mem_map.mp he
  refine ⟨⟨?_, ?_⟩, ⟨rfl, rfl, ?_, ?_⟩, equalIgnoringCase_firing_ascii tbl status⟩
  · intro h
    have h' : ToUpper tbl status = "FIRING" := h
    simp [buildEmbed, iconUrl, color, h', firingIconUrl]
  · intro h
    have h' : ¬ ToUpper tbl status = "FIRING" := h
    simp [buildEmbed, iconUrl, color, h', resolvedIconUrl]
  · intro h
    have h' : "RESOLVED" = "FIRING" := h
    exact absurd h' (by decide)
  · intro h
    have h' : "FLAPPING" = "FIRING" := h
    exact absurd h' (by decide)

theorem embed_badge_by_status_witness :
    (buildEmbed id (RangeOrder.insertion String) "FIRING" highCPU).Author.IconUrl =
        "https://www.iconfinder.com/icons/116853/download/png/128" ∧
    (buildEmbed id (RangeOrder.insertion String) "FIRING" highCPU).Color = 0 :=
  (embed_badge_by_status id insertionOrder "FIRING" [highCPU]
    (buildEmbed id (RangeOrder.insertion String) "FIRING" highCPU)
    (by decide)).1.1 rfl

/-- C4: the embed built for the `i`-th alert of a status group has title
"**" ++ summary ++ "**", the description annotation as description (an absent
annotation counting as the empty string), the upper-cased status as author name,
and exactly one field, named "Labels:", whose value is the concatenation of one line
"**key:** value\n" per label, in the order the label map is ranged over.  The
alert of the end-to-end scenario gives title "**CPU high**", description
"CPU > 90%", field value "**alertname:** HighCPU\n" and color 0. -/
theorem embed_of_alert (tbl : Char → Char) (labelOrder : Nat → RangeOrder String)
    (status : String) (alerts : List Alert) (i : Nat) (alert : Alert)
    (hi : alerts[i]? = some alert) :
    (∃ e, (buildRequest tbl labelOrder status alerts).Embeds[i]? = some e ∧
      e.Title = "**" ++ (List.lookup "summary" alert.Annotations).getD "" ++ "**" ∧
      e.Description = (List.lookup "description" alert.Annotations).getD "" ∧
      e.Author.Name = ToUpper tbl status ∧
      (∃ visited : KV, visited.Perm alert.Labels ∧
        e.Fields = [{ Name := "Labels:"
                      Value := String.join (visited.map
                        (fun kv => "**" ++ kv.1 ++ ":** " ++ kv.2 ++ "\n")) }]) ∧
      (alert.Labels = [] → e.Fields = [{ Name := "Labels:", Value := "" }])) ∧
    (∀ order : Nat → RangeOrder String,
      (buildRequest tbl order "firing" [highCPU]).Embeds =
        [{ Title := "**CPU high**"
           Author := { Name := "FIRING"
                       IconUrl := "https://www.iconfinder.com/icons/116853/download/png/128" }
           Description := "CPU > 90%"
           Fields := [{ Name := "Labels:", Value := "**alertname:** HighCPU\n" }]
           Color := 0
           Footer := { Text := "" } }]) := by
  refine ⟨⟨buildEmbed tbl (labelOrder i) status alert, ?_, rfl, rfl, rfl, ?_, ?_⟩, ?_⟩
  · rw [buildRequest_embeds_getElem?, hi]
    rfl
  · refine ⟨(labelOrder i).visit alert.Labels, (labelOrder i).perm alert.Labels, ?_⟩
    simp only [buildEmbed, List.nil_append, labelsValue_eq_join]
    rfl
  · intro hl
    have hv : (labelOrder i).visit alert.Labels = [] := by
      rw [hl]
      exact List.perm_nil.mp ((labelOrder i).perm [])
    simp only [buildEmbed, List.nil_append, hv, labelsValue, List.foldl_nil]
  · intro order
    have hv : (order 0).visit highCPU.Labels = [("alertname", "HighCPU")] := by
      have h := (order 0).perm highCPU.Labels
      exact List.perm_singleton.mp h
    rw [buildRequest_embeds]
    simp only [List.enum, List.enumFrom, List.map_cons, List.map_nil, buildEmbed, hv]
    rfl

theorem embed_of_alert_witness :
    ∃ e, (buildRequest id reversedOrder "resolved" [highCPU, diskFull]).Embeds[1]? = some e ∧
      e.Title = "****" ∧ e.Description = "" ∧ e.Author.Name = "RESOLVED" ∧
      e.Fields = [{ Name := "Labels:"
                    Value := "**severity:** page\n**alertname:** DiskFull\n" }] := by
  obtain ⟨⟨e, he, ht, hd, ha, _, _⟩, _⟩ :=
    embed_of_alert id reversedOrder "resolved" [highCPU, diskFull] 1 diskFull rfl
  refine ⟨e, he, ht, hd, ha, ?_⟩
  have h2 : (buildRequest id reversedOrder "resolved" [highCPU, diskFull]).Embeds[1]? =
      some (buildEmbed id (RangeOrder.reversed String) "resolved" diskFull) := by decide
  rw [h2] at he
  cases he
  decide

/-- C5: the message built from a status group has as many embeds as the group has
alerts, and its `i`-th embed is the embed built from the `i`-th alert of the group. -/
theorem embeds_follow_group (tbl : Char → Char) (labelOrder : Nat → RangeOrder String)
    (status : String) (alerts : List Alert) :
    (buildRequest tbl labelOrder status alerts).Embeds.length = alerts.length ∧
    ∀ i : Nat, (buildRequest tbl labelOrder status alerts).Embeds[i]? =
      (alerts[i]?).map (buildEmbed tbl (labelOrder i) status) :=
  ⟨buildRequest_embeds_length tbl labelOrder status alerts,
   buildRequest_embeds_getElem? tbl labelOrder status alerts⟩

/-- C10: two runs of the builder on the same group, with any two orders of ranging
over the label maps, agree on content, username, avatar URL, number of embeds, and
for each position on the title, description, author, color and footer of the
embed; both embeds have the single field "Labels:", and the two values are the
concatenations of two arrangements of the same label lines. -/
theorem builder_stable_up_to_label_order (tbl : Char → Char)
    (order₁ order₂ : Nat → RangeOrder String) (status : String) (alerts : List Alert) :
    (buildRequest tbl order₁ status alerts).Content =
        (buildRequest tbl order₂ status alerts).Content ∧
    (buildRequest tbl order₁ status alerts).Username = "Prometheus" ∧
    (buildRequest tbl order₂ status alerts).Username = "Prometheus" ∧
    (buildRequest tbl order₁ status alerts).AvatarURL =
        "https://avatars1.githubusercontent.com/u/3380462?s=200&v=4" ∧
    (buildRequest tbl order₂ status alerts).AvatarURL =
        "https://avatars1.githubusercontent.com/u/3380462?s=200&v=4" ∧
    (buildRequest tbl order₁ status alerts).Embeds.length =
        (buildRequest tbl order₂ status alerts).Embeds.length ∧
    ∀ (i : Nat) (e₁ e₂ : discordEmbed),
      (buildRequest tbl order₁ status alerts).Embeds[i]? = some e₁ →
      (buildRequest tbl order₂ status alerts).Embeds[i]? = some e₂ →
      e₁.Title = e₂.Title ∧ e₁.Description = e₂.Description ∧ e₁.Author = e₂.Author ∧
      e₁.Color = e₂.Color ∧ e₁.Footer = e₂.Footer ∧
      ∃ (alert : Alert) (lines₁ lines₂ : List String),
        alerts[i]? = some alert ∧
        lines₁.Perm (alert.Labels.map (fun kv => labelLine kv.1 kv.2)) ∧
        lines₁.Perm lines₂ ∧
        e₁.Fields = [{ Name := "Labels:", Value := String.join lines₁ }] ∧
        e₂.Fields = [{ Name := "Labels:", Value := String.join lines₂ }] := by
  refine ⟨rfl, rfl, rfl, rfl, rfl, ?_, ?_⟩
  · rw [buildRequest_embeds_length, buildRequest_embeds_length]
  · intro i e₁ e₂ h₁ h₂
    rw [buildRequest_embeds_getElem?] at h₁ h₂
    cases ha : alerts[i]? with
    | none => rw [ha] at h₁; cases h₁
    | some alert =>
      rw [ha] at h₁ h₂
      cases h₁
      cases h₂
      refine ⟨rfl, rfl, rfl, rfl, rfl, alert,
        ((order₁ i).visit alert.Labels).map (fun kv => labelLine kv.1 kv.2),
        ((order₂ i).visit alert.Labels).map (fun kv => labelLine kv.1 kv.2), rfl, ?_, ?_, ?_, ?_⟩
      · exact ((order₁ i).perm alert.Labels).map _
      · exact (((order₁ i).perm alert.Labels).trans
          ((order₂ i).perm alert.Labels).symm).map _
      · simp only [buildEmbed, List.nil_append, labelsValue_eq_join]
      · simp only [buildEmbed, List.nil_append, labelsValue_eq_join]

theorem builder_stable_up_to_label_order_witness :
    (buildEmbed id (RangeOrder.insertion String) "resolved" diskFull).Title =
        (buildEmbed id (RangeOrder.reversed String) "resolved" diskFull).Title ∧
    (buildEmbed id (RangeOrder.insertion String) "resolved" diskFull).Fields =
        [{ Name := "Labels:", Value := "**alertname:** DiskFull\n**severity:** page\n" }] ∧
    (buildEmbed id (RangeOrder.reversed String) "resolved" diskFull).Fields =
        [{ Name := "Labels:", Value := "**severity:** page\n**alertname:** DiskFull\n" }] :=
  ⟨((builder_stable_up_to_label_order id insertionOrder reversedOrder "resolved"
      [highCPU, diskFull]).2.2.2.2.2.2 1 _ _ (by decide) (by decide)).1,
    by decide, by decide⟩

/-! ## The status grouping: claims -/

/-- C2: for N alerts with K distinct status values the grouping step yields exactly K
groups, with pairwise distinct keys; the group sizes sum to N; and, the alerts being
tagged with their positions in the input, every position occurs exactly once over
all groups, so that no two groups share a position. -/
theorem groups_partition_alerts (alerts : List Alert) :
    (groupedAlerts alerts).length = (alerts.map Alert.Status).dedup.length ∧
    (groupedAlerts alerts).keys.Nodup ∧
    ((groupedAlerts alerts).map (fun g => g.2.length)).sum = alerts.length ∧
    groupedAlerts alerts =
      (groupedPositions alerts).map (fun g => (g.1, g.2.map Prod.snd)) ∧
    ((groupedPositions alerts).flatMap (fun g => g.2.map Prod.fst)).Perm
      (List.range alerts.length) ∧
    (groupedPositions alerts).Pairwise
      (fun g h => List.Disjoint (g.2.map Prod.fst) (h.2.map Prod.fst)) := by
  have hflat : ((groupedPositions alerts).flatMap (fun g => g.2.map Prod.fst)).Perm
      (List.range alerts.length) := by
    have h := groupLoop_flatten (fun p : Nat × Alert => p.2.Status) alerts.enum []
    have h2 := h.map Prod.fst
    simpa [groupedPositions, groupedAlertsBy, List.map_flatMap] using h2
  refine ⟨groupedAlertsBy_length Alert.Status alerts,
    groupedAlertsBy_nodup_keys Alert.Status alerts, ?_, ?_, hflat, ?_⟩
  · have h := groupLoop_total Alert.Status alerts []
    simpa [groupedAlerts, groupedAlertsBy, StrMap.total] using h
  · have h := groupLoop_map (Prod.snd : Nat × Alert → Alert) Alert.Status alerts.enum []
    rw [List.enum_map_snd] at h
    simpa [groupedAlerts, groupedPositions, groupedAlertsBy] using h
  · have hnd : ((groupedPositions alerts).flatMap (fun g => g.2.map Prod.fst)).Nodup :=
      hflat.nodup_iff.mpr (List.nodup_range _)
    exact (List.nodup_flatMap.mp hnd).2

/-- C3: the group keyed by `s` is the sublist of the input alerts whose status is
exactly `s`, in input order; there is at most one group per key, and a status that
occurs in no alert has no group. -/
theorem group_is_filter_of_status (alerts : List Alert) (s : String) :
    (∀ g, (s, g) ∈ groupedAlerts alerts ↔
      ((∃ a ∈ alerts, a.Status = s) ∧ g = alerts.filter (fun a => a.Status = s))) ∧
    (s ∈ (groupedAlerts alerts).keys ↔ ∃ a ∈ alerts, a.Status = s) ∧
    (groupedAlerts alerts).keys.Nodup ∧
    (List.lookup "firing" (groupedAlerts [highCPU, diskFull, { highCPU with Status := "FIRING" },
        { diskFull with Status := "firing" }]) =
      some [highCPU, { diskFull with Status := "firing" }]) := by
  have hnd := groupedAlertsBy_nodup_keys Alert.Status alerts
  have hmem : s ∈ alerts.map Alert.Status ↔ ∃ a ∈ alerts, a.Status = s := by
    simp [List.mem_map]
  refine ⟨?_, ?_, hnd, by decide⟩
  · intro g
    rw [groupedAlerts, StrMap.mem_iff_lookup _ hnd, groupedAlertsBy_lookup, ← hmem]
    split
    · rename_i h
      simp only [Option.some.injEq, h, true_and]
      exact eq_comm
    · rename_i h
      simp [h]
  · rw [groupedAlerts, groupedAlertsBy_mem_keys, hmem]

/-! ## Lemmas on the delivery loop -/

theorem deliverLoop_append (tbl : Char → Char) (labelOrder : String → Nat → RangeOrder String)
    (post : Nat → discordRequest → PostResult) (pre : StrMap (List Alert)) :
    ∀ (n : Nat) (rest : StrMap (List Alert)),
      (∀ i, n ≤ i → i < n + pre.length → ∀ r, ∃ code body, post i r = .response code body) →
      (deliverLoop tbl labelOrder post n (pre ++ rest)).posts =
          pre.map (fun g => buildRequest tbl (labelOrder g.1) g.1 g.2) ++
            (deliverLoop tbl labelOrder post (n + pre.length) rest).posts ∧
      (deliverLoop tbl labelOrder post n (pre ++ rest)).log =
          (deliverLoop tbl labelOrder post n pre).log ++
            (deliverLoop tbl labelOrder post (n + pre.length) rest).log ∧
      (deliverLoop tbl labelOrder post n pre).log.length = pre.length ∧
      (deliverLoop tbl labelOrder post n (pre ++ rest)).outcome =
          (deliverLoop tbl labelOrder post (n + pre.length) rest).outcome := by
  induction pre with
  | nil => intro n rest _; simp [deliverLoop]
  | cons g pre ih =>
    intro n rest h
    obtain ⟨status, alerts⟩ := g
    obtain ⟨code, body, hp⟩ :=
      h n (Nat.le_refl n) (by simp) (buildRequest tbl (labelOrder status) status alerts)
    have ih' := ih (n + 1) rest (by
      intro i h1 h2 r
      exact h i (by omega) (by simp only [List.length_cons]; omega) r)
    have e : n + 1 + pre.length = n + (pre.length + 1) := by omega
    rw [e] at ih'
    obtain ⟨i1, i2, i3, i4⟩ := ih'
    simp only [List.cons_append, deliverLoop, hp, List.map_cons, List.length_cons]
    exact ⟨congrArg (List.cons _) i1, congrArg (List.cons _) i2, by rw [i3], i4⟩

theorem deliverLoop_answered (tbl : Char → Char)
    (labelOrder : String → Nat → RangeOrder String)
    (post : Nat → discordRequest → PostResult) (groups : StrMap (List Alert)) (n : Nat)
    (h : ∀ i r, ∃ code body, post i r = .response code body) :
    (deliverLoop tbl labelOrder post n groups).posts =
        groups.map (fun g => buildRequest tbl (labelOrder g.1) g.1 g.2) ∧
    (deliverLoop tbl labelOrder post n groups).log.length = groups.length ∧
    (deliverLoop tbl labelOrder post n groups).outcome = .returned := by
  have hh := deliverLoop_append tbl labelOrder post groups n [] (fun i _ _ r => h i r)
  simp only [List.append_nil, deliverLoop] at hh
  exact ⟨hh.1, hh.2.2.1, hh.2.2.2⟩

theorem deliverLoop_returned_iff (tbl : Char → Char)
    (labelOrder : String → Nat → RangeOrder String)
    (post : Nat → discordRequest → PostResult) (groups : StrMap (List Alert)) :
    ∀ n : Nat,
      ((deliverLoop tbl labelOrder post n groups).outcome = .returned ↔
        ∀ i g, groups[i]? = some g →
          ∃ code body, post (n + i) (buildRequest tbl (labelOrder g.1) g.1 g.2) =
            .response code body) ∧
      ((deliverLoop tbl labelOrder post n groups).outcome = .returned ∨
        (deliverLoop tbl labelOrder post n groups).outcome = .exited) := by
  induction groups with
  | nil => intro n; simp [deliverLoop]
  | cons g rest ih =>
    intro n
    obtain ⟨status, alerts⟩ := g
    cases hp : post n (buildRequest tbl (labelOrder status) status alerts) with
    | transportError err =>
      refine ⟨?_, ?_⟩
      · simp only [deliverLoop, hp]
        constructor
        · intro h; cases h
        · intro h
          obtain ⟨code, body, hc⟩ := h 0 (status, alerts) (by simp)
          rw [Nat.add_zero, hp] at hc
          cases hc
      · simp [deliverLoop, hp]
    | response code body =>
      obtain ⟨ih1, ih2⟩ := ih (n + 1)
      refine ⟨?_, ?_⟩
      · simp only [deliverLoop, hp]
        rw [ih1]
        constructor
        · intro h i g hg
          cases i with
          | zero =>
            simp only [List.getElem?_cons_zero, Option.some.injEq] at hg
            subst hg
            exact ⟨code, body, hp⟩
          | succ j =>
            simp only [List.getElem?_cons_succ] at hg
            have := h j g hg
            have e : n + (j + 1) = n + 1 + j := by omega
            rw [e]
            exact this
        · intro h i g hg
          have := h (i + 1) g (by simpa using hg)
          have e : n + (i + 1) = n + 1 + i := by omega
          rw [← e]
          exact this
      · simpa [deliverLoop, hp] using ih2

/-! ## Delivery and the handler: claims -/

/-- C6: when the body decodes to a notification whose alerts take K distinct status
values and every POST yields an HTTP response, the handler makes exactly K POSTs,
the messages built from the status groups in visiting order, one per group.  An
empty alert list gives no message and no POST; two alerts with statuses "firing"
and "resolved" give two POSTs of one embed each. -/
theorem one_post_per_status_group (w : World) (b : List UInt8) (data : Data)
    (hdec : w.decode b = .ok data)
    (hnet : ∀ n r, ∃ code body, w.post n r = .response code body) :
    (handler w (.ok b)).posts =
        (w.groupOrder.visit (groupedAlerts data.Alerts)).map
          (fun g => buildRequest w.upperTable (w.labelOrder g.1) g.1 g.2) ∧
    (w.groupOrder.visit (groupedAlerts data.Alerts)).Perm (groupedAlerts data.Alerts) ∧
    (handler w (.ok b)).posts.length = (data.Alerts.map Alert.Status).dedup.length ∧
    (data.Alerts = [] →
      (handler w (.ok b)).posts = [] ∧ (handler w (.ok b)).log = []) ∧
    (∀ a₁ a₂, data.Alerts = [a₁, a₂] → a₁.Status = "firing" → a₂.Status = "resolved" →
      (handler w (.ok b)).posts.length = 2 ∧
      ∀ r ∈ (handler w (.ok b)).posts, r.Embeds.length = 1) := by
  have hrun := deliverLoop_answered w.upperTable w.labelOrder w.post
    (w.groupOrder.visit (groupedAlerts data.Alerts)) 0 hnet
  have hh : handler w (.ok b) = deliverLoop w.upperTable w.labelOrder w.post 0
      (w.groupOrder.visit (groupedAlerts data.Alerts)) := by
    simp only [handler, hdec]
  have hperm := w.groupOrder.perm (groupedAlerts data.Alerts)
  have hlen : (handler w (.ok b)).posts.length = (groupedAlerts data.Alerts).length := by
    rw [hh, hrun.1, List.length_map, hperm.length_eq]
  refine ⟨by rw [hh, hrun.1], hperm, ?_, ?_, ?_⟩
  · rw [hlen]
    exact groupedAlertsBy_length Alert.Status data.Alerts
  · intro he
    have hv : w.groupOrder.visit (groupedAlerts data.Alerts) = [] := by
      rw [he] at hperm ⊢
      exact List.perm_nil.mp hperm
    rw [hh, hv]
    simp [deliverLoop]
  · intro a₁ a₂ he h₁ h₂
    have hne : ¬ ("firing" = "resolved") := by decide
    have hg : groupedAlerts data.Alerts = [("firing", [a₁]), ("resolved", [a₂])] := by
      rw [he]
      simp [groupedAlerts, groupedAlertsBy, groupLoop, groupStep, StrMap.assign,
        StrMap.index, List.lookup, h₁, h₂, hne]
    refine ⟨by rw [hlen, hg]; rfl, ?_⟩
    intro r hr
    rw [hh, hrun.1] at hr
    obtain ⟨g, hgm, rfl⟩ := List.mem_map.mp hr
    have hgm' : g ∈ groupedAlerts data.Alerts := hperm.mem_iff.mp hgm
    rw [buildRequest_embeds_length]
    rw [hg] at hgm'
    simp only [List.mem_cons, List.mem_singleton, List.not_mem_nil, or_false] at hgm'
    rcases hgm' with rfl | rfl <;> rfl

theorem one_post_per_status_group_witness :
    (handler failingDestination (.ok twoStatusPayload)).posts.length = 2 ∧
    (handler failingDestination (.ok twoStatusPayload)).posts.map
      (fun r => r.Embeds.map (fun e => e.Author.Name)) = [["RESOLVED"], ["FIRING"]] :=
  ⟨((one_post_per_status_group failingDestination twoStatusPayload
      (notificationOf [bareAlert "firing", bareAlert "resolved"]) rfl
      (fun _ _ => ⟨500, .ok "internal error", rfl⟩)).2.2.2.2
        (bareAlert "firing") (bareAlert "resolved") rfl rfl rfl).1,
   by decide⟩

/-- C7 as stated fails: when the destination cannot be reached the process exits at
line 160 and the inbound caller gets no response, and when the body does not decode
the handler panics at line 100 before any response is written. -/
theorem inbound_200_not_unconditional :
    (handler unreachableDestination (.ok scenarioPayload)).outcome = .exited ∧
    inboundStatus (handler unreachableDestination (.ok scenarioPayload)).outcome = none ∧
    (handler failingDestination (.ok truncatedPayload)).outcome =
      .panicked "unexpected end of JSON input" ∧
    inboundStatus (handler failingDestination (.ok truncatedPayload)).outcome = none := by
  decide

/-- C7, amended: when the body decodes, the inbound caller receives HTTP 200 exactly
when every POST of the request yields an HTTP response, whatever the status codes
answered and whether or not the response bodies can be read; otherwise the process
exits at the first POST that fails at transport level and no response is sent. -/
theorem inbound_200_iff_posts_answered (w : World) (b : List UInt8) (data : Data)
    (hdec : w.decode b = .ok data) :
    (inboundStatus (handler w (.ok b)).outcome = some 200 ↔
      ∀ i g, (w.groupOrder.visit (groupedAlerts data.Alerts))[i]? = some g →
        ∃ code body,
          w.post i (buildRequest w.upperTable (w.labelOrder g.1) g.1 g.2) =
            .response code body) ∧
    (inboundStatus (handler w (.ok b)).outcome ≠ some 200 →
      (handler w (.ok b)).outcome = .exited ∧
      inboundStatus (handler w (.ok b)).outcome = none) := by
  have hh : handler w (.ok b) = deliverLoop w.upperTable w.labelOrder w.post 0
      (w.groupOrder.visit (groupedAlerts data.Alerts)) := by
    simp only [handler, hdec]
  obtain ⟨h1, h2⟩ := deliverLoop_returned_iff w.upperTable w.labelOrder w.post
    (w.groupOrder.visit (groupedAlerts data.Alerts)) 0
  simp only [Nat.zero_add] at h1
  rw [hh]
  refine ⟨?_, ?_⟩
  · rw [← h1]
    rcases h2 with h | h <;> simp [h, inboundStatus]
  · rcases h2 with h | h <;> simp [h, inboundStatus]

theorem inbound_200_iff_posts_answered_witness :
    inboundStatus (handler failingDestination (.ok twoStatusPayload)).outcome = some 200 :=
  (inbound_200_iff_posts_answered failingDestination twoStatusPayload
    (notificationOf [bareAlert "firing", bareAlert "resolved"]) rfl).1.mpr
    (fun _ _ _ => ⟨500, .ok "internal error", rfl⟩)

/-- C8: let the status groups be visited in the order `pre ++ (status, alerts) :: rest`
and let every POST for the groups of `pre` have yielded an HTTP response.  If the
POST for the group `status` yields a response, the log records its status code and
its body text (the body as read, or the read error text), and the run goes on with
the groups of `rest`, the next of them being posted.  If that POST fails at
transport level, it is the last POST of the request and the process exits. -/
theorem response_logged_transport_error_fatal (w : World) (b : List UInt8) (data : Data)
    (pre rest : StrMap (List Alert)) (status : String) (alerts : List Alert)
    (hdec : w.decode b = .ok data)
    (hord : w.groupOrder.visit (groupedAlerts data.Alerts) = pre ++ (status, alerts) :: rest)
    (hpre : ∀ i, i < pre.length → ∀ r, ∃ code body, w.post i r = .response code body) :
    (∀ code body,
      w.post pre.length (buildRequest w.upperTable (w.labelOrder status) status alerts) =
        .response code body →
      (handler w (.ok b)).posts =
        pre.map (fun g => buildRequest w.upperTable (w.labelOrder g.1) g.1 g.2) ++
          buildRequest w.upperTable (w.labelOrder status) status alerts ::
            (deliverLoop w.upperTable w.labelOrder w.post (pre.length + 1) rest).posts ∧
      (handler w (.ok b)).log[pre.length]? =
        some (.webhookResponse code (responseBody body)) ∧
      (∀ text, body = .ok text → responseBody body = text) ∧
      (handler w (.ok b)).outcome =
        (deliverLoop w.upperTable w.labelOrder w.post (pre.length + 1) rest).outcome ∧
      (∀ g rest', rest = g :: rest' →
        (handler w (.ok b)).posts[pre.length + 1]? =
          some (buildRequest w.upperTable (w.labelOrder g.1) g.1 g.2))) ∧
    (∀ err,
      w.post pre.length (buildRequest w.upperTable (w.labelOrder status) status alerts) =
        .transportError err →
      (handler w (.ok b)).posts =
        pre.map (fun g => buildRequest w.upperTable (w.labelOrder g.1) g.1 g.2) ++
          [buildRequest w.upperTable (w.labelOrder status) status alerts] ∧
      (handler w (.ok b)).posts.length = pre.length + 1 ∧
      (handler w (.ok b)).outcome = .exited) := by
  have hh : handler w (.ok b) = deliverLoop w.upperTable w.labelOrder w.post 0
      (pre ++ (status, alerts) :: rest) := by
    simp only [handler, hdec, hord]
  obtain ⟨a1, a2, a3, a4⟩ := deliverLoop_append w.upperTable w.labelOrder w.post pre 0
    ((status, alerts) :: rest) (by
      intro i _ hi r
      exact hpre i (by omega) r)
  simp only [Nat.zero_add] at a1 a2 a4
  rw [hh, a1, a2, a4]
  refine ⟨?_, ?_⟩
  · intro code body hp
    refine ⟨?_, ?_, ?_, ?_, ?_⟩
    · simp only [deliverLoop, hp]
    · rw [List.getElem?_append_right (by omega), a3]
      simp [deliverLoop, hp]
    · intro text ht
      rw [ht]
      rfl
    · simp only [deliverLoop, hp]
    · intro g rest' hr
      obtain ⟨s', al'⟩ := g
      rw [List.getElem?_append_right (by simp), hr]
      simp only [List.length_map, Nat.add_sub_cancel_left, deliverLoop, hp]
      cases hq : w.post (pre.length + 1)
          (buildRequest w.upperTable (w.labelOrder s') s' al') <;> simp
  · intro err hp
    refine ⟨?_, ?_, ?_⟩
    · simp only [deliverLoop, hp]
    · simp [deliverLoop, hp]
    · simp only [deliverLoop, hp]

theorem response_logged_transport_error_fatal_witness :
    (handler flakyDestination (.ok twoStatusPayload)).log[0]? =
        some (.webhookResponse 500 "internal error") ∧
    (handler flakyDestination (.ok twoStatusPayload)).posts.length = 2 ∧
    (handler flakyDestination (.ok twoStatusPayload)).outcome = .exited :=
  ⟨((response_logged_transport_error_fatal flakyDestination twoStatusPayload
      (notificationOf [bareAlert "firing", bareAlert "resolved"])
      [] [("resolved", [bareAlert "resolved"])] "firing" [bareAlert "firing"]
      rfl (by decide) (fun i hi => absurd hi (Nat.not_lt_zero i))).1
      500 (.ok "internal error") rfl).2.1,
   by decide, by decide⟩

/-- C9: when decoding the body fails, the handler panics with the decoder's error:
no outbound message is built or posted and nothing is logged for a delivery. -/
theorem decode_failure_aborts_request (w : World) (b : List UInt8) (err : String)
    (hdec : w.decode b = .error err) :
    handler w (.ok b) = { posts := [], log := [], outcome := .panicked err } ∧
    (handler w (.ok b)).posts = [] := by
  simp only [handler, hdec, and_self]

theorem decode_failure_aborts_request_witness :
    (handler failingDestination (.ok truncatedPayload)).posts = [] :=
  (decode_failure_aborts_request failingDestination truncatedPayload
    "unexpected end of JSON input" rfl).2

end AlertmanagerDiscord
